import Mathlib

set_option autoImplicit false

/-!
# go-teamcity: step decoding and schedule-trigger options

A shallow embedding of `teamcity/step.go` (the discriminated decoding of build
steps, single and in a counted collection) and of
`teamcity/trigger_schedule_options.go` (the schedule-trigger options and their
conversion to and from a property bag).

Go values are modelled as follows.

* `error` is its message (`GoError`); a `nil` error is `none`.
* A pointer that may be `nil` (`*bool`, `*stepJSON`, `*Properties`) is an `Option`.
* A function that writes through a pointer argument takes the pointed-to value and
  returns the new one next to its `error`.
* A run-time panic is the `panicked` constructor of `Outcome`.
* `encoding/json` and the `UnmarshalJSON` methods of the four concrete step types are
  not part of the two files; they are the fields of a `Codec`, over which every
  definition and theorem about steps is parametric.
-/

namespace Teamcity

/-! ## Data model of `step.go` -/

/-- A Go `error`, identified with its message. -/
abbrev GoError := String

/-- How a Go call ends: it returns (its `error` result and the final value of the
location `out` points to), or it panics. -/
inductive Outcome (σ : Type) where
  | returned (err : Option GoError) (out : σ)
  | panicked (msg : String)
  deriving Repr, DecidableEq

/-- The type `BuildStepType`, an alias of `string`. -/
abbrev BuildStepType := String

/-- The constant `StepTypePowershell`. -/
def StepTypePowershell : BuildStepType := "jetbrains_powershell"
/-- The constant `StepTypeDotnetCli`. -/
def StepTypeDotnetCli : BuildStepType := "dotnet.cli"
/-- The constant `StepTypeCommandLine`. -/
def StepTypeCommandLine : BuildStepType := "simpleRunner"
/-- The constant `StepTypeOctopusPushPackage`. -/
def StepTypeOctopusPushPackage : BuildStepType := "octopus.push.package"
/-- The constant `StepTypeOctopusCreateRelease`. -/
def StepTypeOctopusCreateRelease : BuildStepType := "octopus.create.release"

/-- Modelled from the spec: the type `Property` is declared outside the two files; the
spec gives a bag entry as a `name`, `value` pair of strings. -/
structure Property where
  Name : String
  Value : String
  deriving Repr, DecidableEq

/-- Modelled from the spec: the type `Properties` is declared outside the two files; the
spec gives the bag as an ordered sequence of name and value pairs. -/
structure Properties where
  Items : List Property
  deriving Repr, DecidableEq

/-- The struct `stepJSON`, the generic envelope of one step; its field `Type` is `Type_` here, `Type`
being reserved. -/
structure stepJSON where
  Disabled : Option Bool
  Href : String
  ID : String
  Inherited : Option Bool
  Name : String
  Properties : Option Properties
  Type_ : String
  deriving Repr, DecidableEq

/-- The struct `stepsJSON`, the envelope of a collection: `Count` is an `int32`, `Items` a slice
of pointers. -/
structure stepsJSON where
  Count : Int
  Items : List (Option stepJSON)
  deriving Repr, DecidableEq

/-- The values of the interface `Step` that `stepReadingFunc` builds: a pointer to one of
the four concrete step types, which are declared outside the two files and are the type
parameters here. -/
inductive Step (PS CL OPP OCR : Type) where
  | powershell (ps : PS)
  | commandLine (cmd : CL)
  | octopusPushPackage (opp : OPP)
  | octopusCreateRelease (ocr : OCR)
  deriving Repr, DecidableEq

/-- What `step.go` calls and does not define: `json.Unmarshal` into a `stepJSON` and
into a `stepsJSON`, `json.Marshal` of a `*stepJSON`, and the `UnmarshalJSON` methods of
the four step types (each starts from the zero value of its type, so its result is a
function of the bytes). -/
structure Codec (Bytes PS CL OPP OCR : Type) where
  unmarshalStepJSON : Bytes → Except GoError stepJSON
  unmarshalStepsJSON : Bytes → Except GoError stepsJSON
  marshalStepJSON : Option stepJSON → Except GoError Bytes
  unmarshalPowershell : Bytes → Except GoError PS
  unmarshalCommandLine : Bytes → Except GoError CL
  unmarshalOctopusPushPackage : Bytes → Except GoError OPP
  unmarshalOctopusCreateRelease : Bytes → Except GoError OCR

/-- Modelled from the spec: `replaceValue` is defined outside the two files; the spec has
the decoders hand their result to the caller, so `replaceValue(out, &v)` is the assignment
of `v` to the location `out` points to. -/
def replaceValue {α : Type} (_out : α) (v : α) : α := v

section Steps

variable {Bytes PS CL OPP OCR : Type}

/-- The `switch payload.Type` of `stepReadingFunc`: the decoded step or the error of the
selected case, `none` for the `default` case. -/
def stepReadingFunc.dispatch (c : Codec Bytes PS CL OPP OCR) (dt : Bytes) (type : String) :
    Option (Except GoError (Step PS CL OPP OCR)) :=
  if type = StepTypePowershell then
    some ((c.unmarshalPowershell dt).map Step.powershell)
  else if type = StepTypeCommandLine then
    some ((c.unmarshalCommandLine dt).map Step.commandLine)
  else if type = StepTypeOctopusPushPackage then
    some ((c.unmarshalOctopusPushPackage dt).map Step.octopusPushPackage)
  else if type = StepTypeOctopusCreateRelease then
    some ((c.unmarshalOctopusCreateRelease dt).map Step.octopusCreateRelease)
  else
    none

/-- The function `stepReadingFunc(dt, out)`: the returned `error` and the final value of `*out`, a
`Step` interface value (`none` is the nil interface). -/
def stepReadingFunc (c : Codec Bytes PS CL OPP OCR) (dt : Bytes)
    (out : Option (Step PS CL OPP OCR)) : Option GoError × Option (Step PS CL OPP OCR) :=
  match c.unmarshalStepJSON dt with
  | .error err => (some err, out)
  | .ok payload =>
    match stepReadingFunc.dispatch c dt payload.Type_ with
    | none =>
      (some ("Unsupported step type: '" ++ payload.Type_ ++ "' (id:'" ++ payload.ID ++ "')"), out)
    | some (.error err) => (some err, out)
    | some (.ok step) => (none, replaceValue out (some step))

/-- The work of one iteration of the loop of `stepsReadingFunc` on an item:
`json.Marshal(item)`, then `stepReadingFunc` on the bytes into a nil slot. The result is the
error, if any, and the slot. -/
def stepsReadingFunc.decodeItem (c : Codec Bytes PS CL OPP OCR) (item : Option stepJSON) :
    Option GoError × Option (Step PS CL OPP OCR) :=
  match c.marshalStepJSON item with
  | .error err => (some err, none)
  | .ok sdt => stepReadingFunc c sdt none

/-- The `for` loop of `stepsReadingFunc` with `todo` iterations left, at index `i`, over
the local slice `steps`. `Items[i]` panics outside the slice. -/
def stepsReadingFunc.loop (c : Codec Bytes PS CL OPP OCR) (Items : List (Option stepJSON)) :
    Nat → Nat → List (Option (Step PS CL OPP OCR)) → Outcome (List (Option (Step PS CL OPP OCR)))
  | 0, _, steps => .returned none steps
  | todo + 1, i, steps =>
    match Items.get? i with
    | none =>
      .panicked ("runtime error: index out of range [" ++ toString i ++ "] with length "
        ++ toString Items.length)
    | some item =>
      match c.marshalStepJSON item with
      | .error err => .returned (some err) steps
      | .ok sdt =>
        match stepReadingFunc c sdt (steps.getD i none) with
        | (some err, slot) => .returned (some err) (steps.set i slot)
        | (none, slot) => stepsReadingFunc.loop c Items todo (i + 1) (steps.set i slot)

/-- The function `stepsReadingFunc(dt, out)`: `out` points to a `[]Step`. `make` panics on a negative
length. -/
def stepsReadingFunc (c : Codec Bytes PS CL OPP OCR) (dt : Bytes)
    (out : List (Option (Step PS CL OPP OCR))) : Outcome (List (Option (Step PS CL OPP OCR))) :=
  match c.unmarshalStepsJSON dt with
  | .error err => .returned (some err) out
  | .ok payload =>
    if payload.Count < 0 then
      .panicked "runtime error: makeslice: len out of range"
    else
      match stepsReadingFunc.loop c payload.Items payload.Count.toNat 0
          (List.replicate payload.Count.toNat none) with
      | .panicked msg => .panicked msg
      | .returned (some err) _ => .returned (some err) out
      | .returned none steps => .returned none (replaceValue out steps)

end Steps

/-! ## Data model of `trigger_schedule_options.go` -/

/-- Modelled from the spec: the type `ArtifactDependencyRevision` is declared outside the
two files; the spec gives the revision rule kind as an enumerated string. -/
abbrev ArtifactDependencyRevision := String

/-- The struct `TriggerScheduleOptions`. -/
structure TriggerScheduleOptions where
  QueueOptimization : Bool
  PromoteWatchedBuild : Bool
  BuildWithPendingChangesOnly : Bool
  TriggerIfWatchedBuildChanges : Bool
  BuildOnAllCompatibleAgents : Bool
  RevisionRuleSourceBuildID : String
  RevisionRule : ArtifactDependencyRevision
  RevisionRuleBuildBranch : String
  EnforceCleanCheckout : Bool
  EnforceCleanCheckoutForDependencies : Bool
  deriving Repr, DecidableEq

/-- The zero value of `TriggerScheduleOptions`, as `var out TriggerScheduleOptions`
gives it. -/
def TriggerScheduleOptions.zero : TriggerScheduleOptions :=
  { QueueOptimization := false
    PromoteWatchedBuild := false
    BuildWithPendingChangesOnly := false
    TriggerIfWatchedBuildChanges := false
    BuildOnAllCompatibleAgents := false
    RevisionRuleSourceBuildID := ""
    RevisionRule := ""
    RevisionRuleBuildBranch := ""
    EnforceCleanCheckout := false
    EnforceCleanCheckoutForDependencies := false }

/-- What the property mapper uses and neither the two files nor the spec spell out: the
tokens a boolean is written as and read from, the set of declared
`ArtifactDependencyRevision` constants, and the constant `LatestFinishedBuild`. -/
structure PropertyFormat where
  formatBool : Bool → String
  parseBool : String → Option Bool
  revisions : List ArtifactDependencyRevision
  LatestFinishedBuild : ArtifactDependencyRevision

/-- Modelled from the spec: the semantic type of a struct field together with its
accessors (boolean, passthrough string, enumerated string), one entry of the
field-descriptor list the spec's design notes describe; `fillStructFromProperties` and
`serializeToProperties`, which read it off the struct by reflection, are defined outside
the two files. -/
inductive FieldAccess (α : Type) where
  | boolean (get : α → Bool) (set : α → Bool → α)
  | string (get : α → String) (set : α → String → α)
  | enumerated (get : α → String) (set : α → String → α)

/-- Modelled from the spec: the `FieldMetadata` of the spec's data model, missing from the
two files as the reflective mapper is: the property key (the `prop` tag), the force flag
(the `force` tag) and the semantic type of the field. -/
structure FieldMetadata (α : Type) where
  key : String
  force : Bool
  access : FieldAccess α

/-- The fields of `TriggerScheduleOptions` with their `prop` and `force` tags, in
declaration order. -/
def TriggerScheduleOptions.fields : List (FieldMetadata TriggerScheduleOptions) :=
  [ ⟨"enableQueueOptimization", true,
      .boolean (fun o => o.QueueOptimization) (fun o b => { o with QueueOptimization := b })⟩,
    ⟨"promoteWatchedBuild", true,
      .boolean (fun o => o.PromoteWatchedBuild) (fun o b => { o with PromoteWatchedBuild := b })⟩,
    ⟨"triggerBuildWithPendingChangesOnly", true,
      .boolean (fun o => o.BuildWithPendingChangesOnly)
        (fun o b => { o with BuildWithPendingChangesOnly := b })⟩,
    ⟨"triggerBuildIfWatchedBuildChanges", false,
      .boolean (fun o => o.TriggerIfWatchedBuildChanges)
        (fun o b => { o with TriggerIfWatchedBuildChanges := b })⟩,
    ⟨"triggerBuildOnAllCompatibleAgents", false,
      .boolean (fun o => o.BuildOnAllCompatibleAgents)
        (fun o b => { o with BuildOnAllCompatibleAgents := b })⟩,
    ⟨"revisionRuleDependsOn", false,
      .string (fun o => o.RevisionRuleSourceBuildID)
        (fun o s => { o with RevisionRuleSourceBuildID := s })⟩,
    ⟨"revisionRule", false,
      .enumerated (fun o => o.RevisionRule) (fun o s => { o with RevisionRule := s })⟩,
    ⟨"revisionRuleBuildBranch", false,
      .string (fun o => o.RevisionRuleBuildBranch)
        (fun o s => { o with RevisionRuleBuildBranch := s })⟩,
    ⟨"enforceCleanCheckout", false,
      .boolean (fun o => o.EnforceCleanCheckout) (fun o b => { o with EnforceCleanCheckout := b })⟩,
    ⟨"enforceCleanCheckoutForDependencies", false,
      .boolean (fun o => o.EnforceCleanCheckoutForDependencies)
        (fun o b => { o with EnforceCleanCheckoutForDependencies := b })⟩ ]

/-- Modelled from the spec: the failure of the mapper on a value that cannot be coerced to
its field's type, missing from the two files as the mapper is; it carries the offending key
and the raw value. -/
structure PropertyValueError where
  key : String
  raw : String
  deriving Repr, DecidableEq

/-- Modelled from the spec: the lookup of a key in a bag, defined outside the two files;
keys are unique in a bag, the first entry of that name is taken. -/
def Properties.GetOk (p : Properties) (key : String) : Option String :=
  (p.Items.find? (fun e => e.Name = key)).map (fun e => e.Value)

section Mapper

variable {α : Type}

/-- Modelled from the spec: the emission rule of `serializeToProperties` (defined outside
the two files) for one field: the pair of the key and the stringified value, unless the
value is the zero value of its type and the field is not force-marked. -/
def FieldMetadata.emit (fmt : PropertyFormat) (m : FieldMetadata α) (v : α) : Option Property :=
  match m.access with
  | .boolean get _ =>
    if get v = false ∧ m.force = false then none else some ⟨m.key, fmt.formatBool (get v)⟩
  | .string get _ =>
    if get v = "" ∧ m.force = false then none else some ⟨m.key, get v⟩
  | .enumerated get _ =>
    if get v = "" ∧ m.force = false then none else some ⟨m.key, get v⟩

/-- Modelled from the spec: `serializeToProperties`, defined outside the two files: each
field in declaration order, under the emission rule. -/
def serializeToProperties (fmt : PropertyFormat) (fields : List (FieldMetadata α)) (v : α) :
    Properties :=
  ⟨fields.filterMap (fun m => m.emit fmt v)⟩

/-- Modelled from the spec: the step of `fillStructFromProperties` (defined outside the two
files) for one field: an absent key leaves the field as it is; a present one is parsed into
the semantic type of the field (boolean parse, passthrough string, validation against the
known constants), and a value that does not parse is a failure with the key and the raw
value. -/
def FieldMetadata.fill (fmt : PropertyFormat) (m : FieldMetadata α) (out : α) (p : Properties) :
    Except PropertyValueError α :=
  match p.GetOk m.key with
  | none => .ok out
  | some raw =>
    match m.access with
    | .boolean _ set =>
      match fmt.parseBool raw with
      | some b => .ok (set out b)
      | none => .error ⟨m.key, raw⟩
    | .string _ set => .ok (set out raw)
    | .enumerated _ set =>
      if raw ∈ fmt.revisions then .ok (set out raw) else .error ⟨m.key, raw⟩

/-- Modelled from the spec: `fillStructFromProperties(&out, p)`, defined outside the two
files: each field in declaration order; the first failure aborts the call. The result is
the final value of `out` and the failure, if any. -/
def fillStructFromProperties (fmt : PropertyFormat) :
    List (FieldMetadata α) → α → Properties → α × Option PropertyValueError
  | [], out, _ => (out, none)
  | m :: ms, out, p =>
    match m.fill fmt out p with
    | .error e => (out, some e)
    | .ok out1 => fillStructFromProperties fmt ms out1 p

end Mapper

/-- The function `NewTriggerScheduleOptions`. -/
def NewTriggerScheduleOptions (fmt : PropertyFormat) : TriggerScheduleOptions :=
  { TriggerScheduleOptions.zero with
    QueueOptimization := true
    PromoteWatchedBuild := true
    BuildWithPendingChangesOnly := true
    RevisionRuleBuildBranch := "<default>"
    RevisionRule := fmt.LatestFinishedBuild }

/-- The method `(o *TriggerScheduleOptions) properties()`. -/
def TriggerScheduleOptions.properties (fmt : PropertyFormat) (o : TriggerScheduleOptions) :
    Properties :=
  serializeToProperties fmt TriggerScheduleOptions.fields o

/-- The method `(p *Properties) triggerScheduleOptions()`: the only result is the struct; what
`fillStructFromProperties` reports is not looked at. -/
def Properties.triggerScheduleOptions (fmt : PropertyFormat) (p : Properties) :
    TriggerScheduleOptions :=
  let out := TriggerScheduleOptions.zero
  (fillStructFromProperties fmt TriggerScheduleOptions.fields out p).1

/-! ## Concrete collaborators, for evaluating the definitions -/

/-- A JSON document as far as the step decoders tell documents apart: one item (`null` or
an object with the fields of `stepJSON`), a collection envelope, or bytes that do not
parse. -/
inductive Doc where
  | item (p : Option stepJSON)
  | collection (s : stepsJSON)
  | malformed
  deriving Repr, DecidableEq

/-- The zero value of `stepJSON`. -/
def stepJSON.zero : stepJSON :=
  { Disabled := none, Href := "", ID := "", Inherited := none, Name := "",
    Properties := none, Type_ := "" }

/-- A `stepJSON` with the given `id` and `type` and nothing else. -/
def stepJSON.minimal (id type : String) : stepJSON :=
  { stepJSON.zero with ID := id, Type_ := type }

/-- Decoding of a `Doc` into a `stepJSON`, as `json.Unmarshal` does it: `null` and an
object without any of the fields leave the zero value. -/
def Doc.toStepJSON : Doc → Except GoError stepJSON
  | .item none => .ok stepJSON.zero
  | .item (some p) => .ok p
  | .collection _ => .ok stepJSON.zero
  | .malformed => .error "unexpected end of JSON input"

/-- Decoding of a `Doc` into a `stepsJSON`, as `json.Unmarshal` does it. -/
def Doc.toStepsJSON : Doc → Except GoError stepsJSON
  | .collection s => .ok s
  | .item _ => .ok { Count := 0, Items := [] }
  | .malformed => .error "unexpected end of JSON input"

/-- A codec over `Doc`; each concrete step type is represented by the envelope it was
decoded from. -/
def docCodec : Codec Doc stepJSON stepJSON stepJSON stepJSON :=
  { unmarshalStepJSON := Doc.toStepJSON
    unmarshalStepsJSON := Doc.toStepsJSON
    marshalStepJSON := fun item => .ok (.item item)
    unmarshalPowershell := Doc.toStepJSON
    unmarshalCommandLine := Doc.toStepJSON
    unmarshalOctopusPushPackage := Doc.toStepJSON
    unmarshalOctopusCreateRelease := Doc.toStepJSON }

/-- A property format with the tokens `true` and `false` and five revision constants. -/
def serverFormat : PropertyFormat :=
  { formatBool := fun b => if b then "true" else "false"
    parseBool := fun s => if s = "true" then some true else if s = "false" then some false else none
    revisions := ["lastSuccessful", "lastPinned", "lastFinished", "buildNumber", "buildTag"]
    LatestFinishedBuild := "lastFinished" }

/-! ## Step decoding: lemmas and claims -/

section StepLemmas
variable {Bytes PS CL OPP OCR : Type}

theorem loop_step (c : Codec Bytes PS CL OPP OCR) (Items : List (Option stepJSON))
    (todo i : Nat) (pre : List (Option (Step PS CL OPP OCR))) (item : Option stepJSON)
    (hpre : pre.length = i) (hitem : Items.get? i = some item)
    (hok : (stepsReadingFunc.decodeItem c item).1 = none) :
    stepsReadingFunc.loop c Items (todo + 1) i (pre ++ List.replicate (todo + 1) none)
      = stepsReadingFunc.loop c Items todo (i + 1)
          ((pre ++ [(stepsReadingFunc.decodeItem c item).2]) ++ List.replicate todo none) := by
  subst hpre
  have hget : (pre ++ List.replicate (todo + 1) (none : Option (Step PS CL OPP OCR))).getD
      pre.length none = none := by
    have h0 : (pre ++ List.replicate (todo + 1) (none : Option (Step PS CL OPP OCR)))[pre.length]?
        = some none := by
      rw [List.getElem?_append_right (le_refl _)]
      simp [List.replicate_succ]
    simp [List.getD_eq_getElem?_getD, h0]
  have hset : ∀ slot : Option (Step PS CL OPP OCR),
      (pre ++ List.replicate (todo + 1) none).set pre.length slot
        = (pre ++ [slot]) ++ List.replicate todo none := by
    intro slot
    simp [List.replicate_succ, List.set_append]
  rw [stepsReadingFunc.loop, hitem]
  simp only [stepsReadingFunc.decodeItem] at hok ⊢
  cases hm : c.marshalStepJSON item with
  | error err => simp [hm] at hok
  | ok sdt =>
    simp only [hm] at hok ⊢
    rw [hget]
    cases hr : stepReadingFunc c sdt none with
    | mk err slot =>
      rw [hr] at hok
      simp only at hok
      subst hok
      simp only [hset]

theorem loop_fail (c : Codec Bytes PS CL OPP OCR) (Items : List (Option stepJSON))
    (todo i : Nat) (steps : List (Option (Step PS CL OPP OCR))) (item : Option stepJSON)
    (e : GoError) (hitem : Items.get? i = some item)
    (hfail : (stepsReadingFunc.decodeItem c item).1 = some e) :
    ∃ s, stepsReadingFunc.loop c Items (todo + 1) i steps = .returned (some e) s := by
  rw [stepsReadingFunc.loop, hitem]
  simp only [stepsReadingFunc.decodeItem] at hfail ⊢
  cases hm : c.marshalStepJSON item with
  | error err =>
    simp only [hm] at hfail ⊢
    cases hfail
    exact ⟨_, rfl⟩
  | ok sdt =>
    simp only [hm] at hfail ⊢
    have hslot : (stepReadingFunc c sdt (steps.getD i none)).1 = some e := by
      simp only [stepReadingFunc] at hfail ⊢
      cases hu : c.unmarshalStepJSON sdt with
      | error err => simpa [hu] using hfail
      | ok payload =>
        simp only [hu] at hfail ⊢
        cases hd : stepReadingFunc.dispatch c sdt payload.Type_ with
        | none => simpa [hd] using hfail
        | some r =>
          cases r with
          | error err => simpa [hd] using hfail
          | ok step => simp [hd] at hfail
    cases hr : stepReadingFunc c sdt (steps.getD i none) with
    | mk err slot =>
      rw [hr] at hslot
      simp only at hslot
      subst hslot
      exact ⟨_, rfl⟩

theorem loop_panic (c : Codec Bytes PS CL OPP OCR) (Items : List (Option stepJSON))
    (todo i : Nat) (steps : List (Option (Step PS CL OPP OCR))) (hitem : Items.get? i = none) :
    stepsReadingFunc.loop c Items (todo + 1) i steps
      = .panicked ("runtime error: index out of range [" ++ toString i ++ "] with length "
          ++ toString Items.length) := by
  rw [stepsReadingFunc.loop, hitem]

theorem loop_skip (c : Codec Bytes PS CL OPP OCR) (Items : List (Option stepJSON)) :
    ∀ (its : List (Option stepJSON)) (todo i : Nat) (pre : List (Option (Step PS CL OPP OCR)))
      (rest : List (Option stepJSON)), pre.length = i → Items.drop i = its ++ rest →
      (∀ it ∈ its, (stepsReadingFunc.decodeItem c it).1 = none) →
      stepsReadingFunc.loop c Items (its.length + todo) i
          (pre ++ List.replicate (its.length + todo) none)
        = stepsReadingFunc.loop c Items todo (i + its.length)
            ((pre ++ its.map (fun it => (stepsReadingFunc.decodeItem c it).2))
              ++ List.replicate todo none) := by
  intro its
  induction its with
  | nil => intro todo i pre rest _ _ _; simp
  | cons it its ih =>
    intro todo i pre rest hpre hdrop hok
    have hget : Items.get? i = some it := by
      have h := congrArg List.head? hdrop
      simpa [List.head?_drop] using h
    have hdrop1 : Items.drop (i + 1) = its ++ rest := by
      have h := congrArg List.tail hdrop
      simpa [List.tail_drop] using h
    have hlen : (it :: its).length + todo = (its.length + todo) + 1 := by
      simp only [List.length_cons]; omega
    rw [hlen, loop_step c Items _ i pre it hpre hget (hok it (List.mem_cons_self _ _))]
    rw [ih todo (i + 1) _ rest (by simp [hpre]) hdrop1
      (fun x hx => hok x (List.mem_cons_of_mem _ hx))]
    simp [Nat.add_assoc, Nat.add_comm 1]

theorem stepsReadingFunc_take (c : Codec Bytes PS CL OPP OCR) (dt : Bytes)
    (out : List (Option (Step PS CL OPP OCR))) (payload : stepsJSON)
    (its rest : List (Option stepJSON))
    (hdec : c.unmarshalStepsJSON dt = .ok payload) (hitems : payload.Items = its ++ rest)
    (hcount : payload.Count = its.length)
    (hok : ∀ it ∈ its, (stepsReadingFunc.decodeItem c it).1 = none) :
    stepsReadingFunc c dt out
      = .returned none (its.map (fun it => (stepsReadingFunc.decodeItem c it).2)) := by
  have hneg : ¬ payload.Count < 0 := by omega
  have hnat : payload.Count.toNat = its.length := by omega
  have hloop := loop_skip c payload.Items its 0 0 [] rest rfl (by simpa using hitems) hok
  simp only [Nat.add_zero, List.nil_append, Nat.zero_add, List.replicate_zero,
    List.append_nil] at hloop
  simp only [stepsReadingFunc, hdec, hneg, if_false, hnat, hloop, stepsReadingFunc.loop,
    replaceValue]

theorem forall₂_decodeItem (c : Codec Bytes PS CL OPP OCR) :
    ∀ (its : List (Option stepJSON)) (steps : List (Step PS CL OPP OCR)),
      List.Forall₂ (fun item step => stepsReadingFunc.decodeItem c item = (none, some step))
        its steps →
      (∀ it ∈ its, (stepsReadingFunc.decodeItem c it).1 = none) ∧
        its.map (fun it => (stepsReadingFunc.decodeItem c it).2) = steps.map some := by
  intro its steps h
  induction h with
  | nil => simp
  | cons hhead _ ih =>
    refine ⟨?_, ?_⟩
    · intro it hit
      rcases List.mem_cons.1 hit with rfl | hmem
      · rw [hhead]
      · exact ih.1 it hmem
    · simp [hhead, ih.2]

/-- C1. A payload whose `type` is none of the four dispatched strings makes
`stepReadingFunc` return the error `Unsupported step type: '<type>' (id:'<id>')`, built from
the type and the id of the payload, and leaves `out` as it was. -/
theorem stepReadingFunc_unsupported (c : Codec Bytes PS CL OPP OCR) (dt : Bytes)
    (out : Option (Step PS CL OPP OCR)) (payload : stepJSON)
    (hdec : c.unmarshalStepJSON dt = .ok payload)
    (h1 : payload.Type_ ≠ "jetbrains_powershell") (h2 : payload.Type_ ≠ "simpleRunner")
    (h3 : payload.Type_ ≠ "octopus.push.package")
    (h4 : payload.Type_ ≠ "octopus.create.release") :
    stepReadingFunc c dt out
      = (some ("Unsupported step type: '" ++ payload.Type_ ++ "' (id:'" ++ payload.ID ++ "')"),
          out) := by
  simp [stepReadingFunc, hdec, stepReadingFunc.dispatch, StepTypePowershell,
    StepTypeCommandLine, StepTypeOctopusPushPackage, StepTypeOctopusCreateRelease, h1, h2, h3, h4]

/-- C2. For each of the four dispatched strings, a payload of that `type` whose variant
decodes the bytes makes `stepReadingFunc` return no error and store in `out` the step of
exactly that variant, whatever the other fields of the payload and the former `out`. -/
theorem stepReadingFunc_dispatches (c : Codec Bytes PS CL OPP OCR) (dt : Bytes)
    (out : Option (Step PS CL OPP OCR)) (payload : stepJSON)
    (hdec : c.unmarshalStepJSON dt = .ok payload) :
    (payload.Type_ = "jetbrains_powershell" → ∀ ps, c.unmarshalPowershell dt = .ok ps →
        stepReadingFunc c dt out = (none, some (Step.powershell ps))) ∧
    (payload.Type_ = "simpleRunner" → ∀ cmd, c.unmarshalCommandLine dt = .ok cmd →
        stepReadingFunc c dt out = (none, some (Step.commandLine cmd))) ∧
    (payload.Type_ = "octopus.push.package" → ∀ opp, c.unmarshalOctopusPushPackage dt = .ok opp →
        stepReadingFunc c dt out = (none, some (Step.octopusPushPackage opp))) ∧
    (payload.Type_ = "octopus.create.release" →
      ∀ ocr, c.unmarshalOctopusCreateRelease dt = .ok ocr →
        stepReadingFunc c dt out = (none, some (Step.octopusCreateRelease ocr))) := by
  refine ⟨?_, ?_, ?_, ?_⟩ <;> intro ht v hv <;>
    simp [stepReadingFunc, hdec, stepReadingFunc.dispatch, StepTypePowershell,
      StepTypeCommandLine, StepTypeOctopusPushPackage, StepTypeOctopusCreateRelease, ht, hv,
      Except.map, replaceValue]

/-- C3. When the declared count equals the number of items and every item decodes,
`stepsReadingFunc` returns no error and stores in `out` a sequence of `count` steps whose
element `i` is the step decoded from item `i`. -/
theorem stepsReadingFunc_decodes_in_order (c : Codec Bytes PS CL OPP OCR) (dt : Bytes)
    (out : List (Option (Step PS CL OPP OCR))) (payload : stepsJSON)
    (steps : List (Step PS CL OPP OCR))
    (hdec : c.unmarshalStepsJSON dt = .ok payload)
    (hcount : payload.Count = payload.Items.length)
    (hitems : List.Forall₂
      (fun item step => stepsReadingFunc.decodeItem c item = (none, some step))
      payload.Items steps) :
    stepsReadingFunc c dt out = .returned none (steps.map some) ∧
      ((steps.map some).length : Int) = payload.Count ∧
      ∀ i (hi : i < payload.Items.length) (hs : i < steps.length),
        stepsReadingFunc.decodeItem c (payload.Items.get ⟨i, hi⟩)
          = (none, some (steps.get ⟨i, hs⟩)) := by
  obtain ⟨hok, hmap⟩ := forall₂_decodeItem c _ _ hitems
  refine ⟨?_, ?_, ?_⟩
  · rw [stepsReadingFunc_take c dt out payload payload.Items [] hdec (by simp) hcount hok, hmap]
  · rw [hcount, List.length_map, hitems.length_eq]
  · intro i hi hs
    exact List.Forall₂.get hitems hi hs

/-- C4. The code does not keep the reads of the item array within bounds: a negative count
makes `make` panic, and a count above the number of items, when every item decodes, makes
`stepsReadingFunc` panic on the read of `Items[len(Items)]`. -/
theorem stepsReadingFunc_panics (c : Codec Bytes PS CL OPP OCR) (dt : Bytes)
    (out : List (Option (Step PS CL OPP OCR))) (payload : stepsJSON)
    (hdec : c.unmarshalStepsJSON dt = .ok payload) :
    (payload.Count < 0 →
      stepsReadingFunc c dt out = .panicked "runtime error: makeslice: len out of range") ∧
    ((payload.Items.length : Int) < payload.Count →
      (∀ it ∈ payload.Items, (stepsReadingFunc.decodeItem c it).1 = none) →
      stepsReadingFunc c dt out
        = .panicked ("runtime error: index out of range [" ++ toString payload.Items.length
            ++ "] with length " ++ toString payload.Items.length)) := by
  refine ⟨?_, ?_⟩
  · intro hneg
    simp [stepsReadingFunc, hdec, hneg]
  · intro hgt hok
    have hneg : ¬ payload.Count < 0 := by omega
    obtain ⟨k, hk⟩ : ∃ k, payload.Count.toNat = payload.Items.length + (k + 1) :=
      ⟨payload.Count.toNat - payload.Items.length - 1, by omega⟩
    have hloop := loop_skip c payload.Items payload.Items (k + 1) 0 [] [] rfl (by simp) hok
    rw [loop_panic c payload.Items k _ _ (by simp)] at hloop
    simp only [Nat.zero_add, List.nil_append] at hloop
    simp only [stepsReadingFunc, hdec, hneg, if_false, hk, hloop]

/-- C5 as the code has it. The count is not compared with the number of items: when the
count is between zero and the number of items and the first `count` items decode,
`stepsReadingFunc` returns no error and stores the steps decoded from the first `count`
items, the sequence being cut at `count`. -/
theorem stepsReadingFunc_cuts_at_count (c : Codec Bytes PS CL OPP OCR) (dt : Bytes)
    (out : List (Option (Step PS CL OPP OCR))) (payload : stepsJSON)
    (steps : List (Step PS CL OPP OCR))
    (hdec : c.unmarshalStepsJSON dt = .ok payload)
    (hlo : 0 ≤ payload.Count) (hhi : payload.Count ≤ payload.Items.length)
    (hitems : List.Forall₂
      (fun item step => stepsReadingFunc.decodeItem c item = (none, some step))
      (payload.Items.take payload.Count.toNat) steps) :
    stepsReadingFunc c dt out = .returned none (steps.map some) ∧
      ((steps.map some).length : Int) = payload.Count := by
  obtain ⟨hok, hmap⟩ := forall₂_decodeItem c _ _ hitems
  have hlen : (payload.Items.take payload.Count.toNat).length = payload.Count.toNat := by
    rw [List.length_take]; omega
  refine ⟨?_, ?_⟩
  · rw [stepsReadingFunc_take c dt out payload (payload.Items.take payload.Count.toNat)
      (payload.Items.drop payload.Count.toNat) hdec (List.take_append_drop _ _).symm
      (by rw [hlen]; omega) hok, hmap]
  · rw [List.length_map, ← hitems.length_eq, hlen]; omega

/-- C6. When the item at an index `i` below the count fails, in its re-serialization or in
its decoding, with the error `e`, and every item before it decodes, `stepsReadingFunc`
returns `e` and leaves `out` as it was. -/
theorem stepsReadingFunc_all_or_nothing (c : Codec Bytes PS CL OPP OCR) (dt : Bytes)
    (out : List (Option (Step PS CL OPP OCR))) (payload : stepsJSON) (i : Nat)
    (item : Option stepJSON) (e : GoError)
    (hdec : c.unmarshalStepsJSON dt = .ok payload)
    (hcount : (i : Int) < payload.Count)
    (hitem : payload.Items.get? i = some item)
    (hbefore : ∀ it ∈ payload.Items.take i, (stepsReadingFunc.decodeItem c it).1 = none)
    (hfail : (stepsReadingFunc.decodeItem c item).1 = some e) :
    stepsReadingFunc c dt out = .returned (some e) out := by
  have hneg : ¬ payload.Count < 0 := by omega
  have hi : i < payload.Items.length := by
    by_contra hge
    rw [List.get?_eq_none.2 (by omega)] at hitem
    cases hitem
  have hlen : (payload.Items.take i).length = i := by
    rw [List.length_take]; omega
  obtain ⟨k, hk⟩ : ∃ k, payload.Count.toNat = (payload.Items.take i).length + (k + 1) :=
    ⟨payload.Count.toNat - i - 1, by omega⟩
  have hloop := loop_skip c payload.Items (payload.Items.take i) (k + 1) 0 []
    (payload.Items.drop i) rfl (by simp) hbefore
  obtain ⟨s, hs⟩ := loop_fail c payload.Items k (0 + (payload.Items.take i).length)
    (([] ++ (payload.Items.take i).map (fun it => (stepsReadingFunc.decodeItem c it).2))
      ++ List.replicate (k + 1) none) item e (by rw [Nat.zero_add, hlen]; exact hitem) hfail
  rw [hs] at hloop
  simp only [List.nil_append] at hloop
  simp only [stepsReadingFunc, hdec, hneg, if_false, hk, hloop]

end StepLemmas

/-! ## Property mapper: lemmas and claims -/

section MapperLemmas
variable {α : Type}

theorem emit_name (fmt : PropertyFormat) (m : FieldMetadata α) (v : α) (p : Property)
    (h : m.emit fmt v = some p) : p.Name = m.key := by
  unfold FieldMetadata.emit at h
  cases hacc : m.access <;> rw [hacc] at h <;> simp only at h <;> split at h <;>
    first
      | (cases h; rfl)
      | cases h

theorem mem_keys_iff (fmt : PropertyFormat) (fields : List (FieldMetadata α)) (v : α)
    (key : String) :
    key ∈ (serializeToProperties fmt fields v).Items.map Property.Name
      ↔ ∃ m ∈ fields, m.key = key ∧ (m.emit fmt v).isSome = true := by
  simp only [serializeToProperties, List.mem_map, List.mem_filterMap]
  constructor
  · rintro ⟨p, ⟨m, hm, hp⟩, rfl⟩
    exact ⟨m, hm, (emit_name fmt m v p hp).symm, by simp [hp]⟩
  · rintro ⟨m, hm, rfl, hsome⟩
    obtain ⟨p, hp⟩ := Option.isSome_iff_exists.1 hsome
    exact ⟨p, ⟨m, hm, hp⟩, emit_name fmt m v p hp⟩

theorem getOk_none_of_not_mem (fmt : PropertyFormat) (fields : List (FieldMetadata α)) (v : α)
    (key : String) (h : key ∉ fields.map FieldMetadata.key) :
    (serializeToProperties fmt fields v).GetOk key = none := by
  have hk : key ∉ (serializeToProperties fmt fields v).Items.map Property.Name := by
    rw [mem_keys_iff]
    rintro ⟨m, hm, rfl, _⟩
    exact h (List.mem_map_of_mem _ hm)
  simp only [Properties.GetOk, Option.map_eq_none', List.find?_eq_none]
  intro p hp hname
  exact hk (List.mem_map.2 ⟨p, hp, by simpa using hname⟩)

theorem getOk_serialize (fmt : PropertyFormat) (v : α) :
    ∀ (fields : List (FieldMetadata α)), (fields.map FieldMetadata.key).Nodup →
      ∀ m ∈ fields, (serializeToProperties fmt fields v).GetOk m.key
        = (m.emit fmt v).map Property.Value := by
  intro fields
  induction fields with
  | nil => intro _ m hm; cases hm
  | cons f fs ih =>
    intro hnodup m hm
    rw [List.map_cons, List.nodup_cons] at hnodup
    have htail : ∀ key, (serializeToProperties fmt (f :: fs) v).GetOk key
        = match f.emit fmt v with
          | some p => if p.Name = key then some p.Value
              else (serializeToProperties fmt fs v).GetOk key
          | none => (serializeToProperties fmt fs v).GetOk key := by
      intro key
      simp only [serializeToProperties, Properties.GetOk, List.filterMap_cons]
      cases hf : f.emit fmt v with
      | none => rfl
      | some p =>
        by_cases hname : p.Name = key
        · simp [List.find?_cons, hname]
        · simp [List.find?_cons, hname]
    rw [htail]
    rcases List.mem_cons.1 hm with rfl | hmem
    · cases hf : m.emit fmt v with
      | none => simpa using getOk_none_of_not_mem fmt fs v m.key hnodup.1
      | some p => simp [emit_name fmt m v p hf]
    · have hne : f.key ≠ m.key := by
        intro heq
        exact hnodup.1 (heq ▸ List.mem_map_of_mem _ hmem)
      cases hf : f.emit fmt v with
      | none => simpa using ih hnodup.2 m hmem
      | some p =>
        have hpn : p.Name ≠ m.key := by rw [emit_name fmt f v p hf]; exact hne
        simpa [hpn] using ih hnodup.2 m hmem

theorem fill_cons_boolean (fmt : PropertyFormat) (fields : List (FieldMetadata α)) (o out : α)
    (key : String) (force : Bool) (get : α → Bool) (set : α → Bool → α)
    (ms : List (FieldMetadata α)) (p : Properties) (r : α × Option PropertyValueError)
    (hmem : (⟨key, force, .boolean get set⟩ : FieldMetadata α) ∈ fields)
    (hnodup : (fields.map FieldMetadata.key).Nodup)
    (hbool : ∀ b, fmt.parseBool (fmt.formatBool b) = some b)
    (hp : serializeToProperties fmt fields o = p) (hzero : set out false = out)
    (hrest : fillStructFromProperties fmt ms (set out (get o)) p = r) :
    fillStructFromProperties fmt (⟨key, force, .boolean get set⟩ :: ms) out p = r := by
  have hget := getOk_serialize fmt o fields hnodup _ hmem
  rw [hp] at hget
  simp only [FieldMetadata.emit] at hget
  rw [fillStructFromProperties, FieldMetadata.fill, hget]
  by_cases hc : get o = false ∧ force = false
  · simp only [hc, and_self, if_true, Option.map_none']
    rw [← hrest, hc.1, hzero]
  · simp only [hc, if_false, Option.map_some', hbool]
    exact hrest

theorem fill_cons_string (fmt : PropertyFormat) (fields : List (FieldMetadata α)) (o out : α)
    (key : String) (force : Bool) (get : α → String) (set : α → String → α)
    (ms : List (FieldMetadata α)) (p : Properties) (r : α × Option PropertyValueError)
    (hmem : (⟨key, force, .string get set⟩ : FieldMetadata α) ∈ fields)
    (hnodup : (fields.map FieldMetadata.key).Nodup)
    (hp : serializeToProperties fmt fields o = p) (hzero : set out "" = out)
    (hrest : fillStructFromProperties fmt ms (set out (get o)) p = r) :
    fillStructFromProperties fmt (⟨key, force, .string get set⟩ :: ms) out p = r := by
  have hget := getOk_serialize fmt o fields hnodup _ hmem
  rw [hp] at hget
  simp only [FieldMetadata.emit] at hget
  rw [fillStructFromProperties, FieldMetadata.fill, hget]
  by_cases hc : get o = "" ∧ force = false
  · simp only [hc, and_self, if_true, Option.map_none']
    rw [← hrest, hc.1, hzero]
  · simp only [hc, if_false, Option.map_some']
    exact hrest

theorem fill_cons_enumerated (fmt : PropertyFormat) (fields : List (FieldMetadata α))
    (o out : α) (key : String) (get : α → String) (set : α → String → α)
    (ms : List (FieldMetadata α)) (p : Properties) (r : α × Option PropertyValueError)
    (hmem : (⟨key, false, .enumerated get set⟩ : FieldMetadata α) ∈ fields)
    (hnodup : (fields.map FieldMetadata.key).Nodup)
    (hrev : get o = "" ∨ get o ∈ fmt.revisions)
    (hp : serializeToProperties fmt fields o = p) (hzero : set out "" = out)
    (hrest : fillStructFromProperties fmt ms (set out (get o)) p = r) :
    fillStructFromProperties fmt (⟨key, false, .enumerated get set⟩ :: ms) out p = r := by
  have hget := getOk_serialize fmt o fields hnodup _ hmem
  rw [hp] at hget
  simp only [FieldMetadata.emit] at hget
  rw [fillStructFromProperties, FieldMetadata.fill, hget]
  by_cases hc : get o = ""
  · simp only [hc, and_self, if_true, Option.map_none']
    rw [← hrest, hc, hzero]
  · have hin : get o ∈ fmt.revisions := hrev.resolve_left hc
    simp only [hc, false_and, if_false, Option.map_some', hin, if_true]
    exact hrest

theorem fields_keys_nodup :
    (TriggerScheduleOptions.fields.map FieldMetadata.key).Nodup := by
  simp [TriggerScheduleOptions.fields]

end MapperLemmas

/-- C7. The bag of any options holds the three force-marked keys whatever their values,
and holds each of the seven other keys exactly when its field is not at the zero value. -/
theorem properties_keys (fmt : PropertyFormat) (o : TriggerScheduleOptions) :
    ("enableQueueOptimization" ∈ (o.properties fmt).Items.map Property.Name ∧
      "promoteWatchedBuild" ∈ (o.properties fmt).Items.map Property.Name ∧
      "triggerBuildWithPendingChangesOnly" ∈ (o.properties fmt).Items.map Property.Name) ∧
    ("triggerBuildIfWatchedBuildChanges" ∈ (o.properties fmt).Items.map Property.Name
        ↔ o.TriggerIfWatchedBuildChanges ≠ false) ∧
    ("triggerBuildOnAllCompatibleAgents" ∈ (o.properties fmt).Items.map Property.Name
        ↔ o.BuildOnAllCompatibleAgents ≠ false) ∧
    ("revisionRuleDependsOn" ∈ (o.properties fmt).Items.map Property.Name
        ↔ o.RevisionRuleSourceBuildID ≠ "") ∧
    ("revisionRule" ∈ (o.properties fmt).Items.map Property.Name ↔ o.RevisionRule ≠ "") ∧
    ("revisionRuleBuildBranch" ∈ (o.properties fmt).Items.map Property.Name
        ↔ o.RevisionRuleBuildBranch ≠ "") ∧
    ("enforceCleanCheckout" ∈ (o.properties fmt).Items.map Property.Name
        ↔ o.EnforceCleanCheckout ≠ false) ∧
    ("enforceCleanCheckoutForDependencies" ∈ (o.properties fmt).Items.map Property.Name
        ↔ o.EnforceCleanCheckoutForDependencies ≠ false) := by
  simp only [TriggerScheduleOptions.properties, mem_keys_iff]
  refine ⟨⟨?_, ?_, ?_⟩, ?_, ?_, ?_, ?_, ?_, ?_, ?_⟩ <;>
    simp [TriggerScheduleOptions.fields, FieldMetadata.emit]

/-- C8. Round trip: when the boolean tokens read back as written and the revision rule is
empty or a known constant, filling a struct from the bag of `o` reports no failure and gives
`o` back, on all ten fields. -/
theorem triggerScheduleOptions_properties (fmt : PropertyFormat) (o : TriggerScheduleOptions)
    (hbool : ∀ b, fmt.parseBool (fmt.formatBool b) = some b)
    (hrev : o.RevisionRule = "" ∨ o.RevisionRule ∈ fmt.revisions) :
    fillStructFromProperties fmt TriggerScheduleOptions.fields TriggerScheduleOptions.zero
        (o.properties fmt) = (o, none) ∧
      (o.properties fmt).triggerScheduleOptions fmt = o := by
  have hnodup := fields_keys_nodup
  have key : fillStructFromProperties fmt TriggerScheduleOptions.fields
      TriggerScheduleOptions.zero (o.properties fmt) = (o, none) := by
    generalize hp : o.properties fmt = p
    unfold TriggerScheduleOptions.fields
    refine fill_cons_boolean fmt TriggerScheduleOptions.fields o _ _ _ _ _ _ _ _
      (by simp [TriggerScheduleOptions.fields]) hnodup hbool hp rfl ?_
    refine fill_cons_boolean fmt TriggerScheduleOptions.fields o _ _ _ _ _ _ _ _
      (by simp [TriggerScheduleOptions.fields]) hnodup hbool hp rfl ?_
    refine fill_cons_boolean fmt TriggerScheduleOptions.fields o _ _ _ _ _ _ _ _
      (by simp [TriggerScheduleOptions.fields]) hnodup hbool hp rfl ?_
    refine fill_cons_boolean fmt TriggerScheduleOptions.fields o _ _ _ _ _ _ _ _
      (by simp [TriggerScheduleOptions.fields]) hnodup hbool hp rfl ?_
    refine fill_cons_boolean fmt TriggerScheduleOptions.fields o _ _ _ _ _ _ _ _
      (by simp [TriggerScheduleOptions.fields]) hnodup hbool hp rfl ?_
    refine fill_cons_string fmt TriggerScheduleOptions.fields o _ _ _ _ _ _ _ _
      (by simp [TriggerScheduleOptions.fields]) hnodup hp rfl ?_
    refine fill_cons_enumerated fmt TriggerScheduleOptions.fields o _ _ _ _ _ _ _
      (by simp [TriggerScheduleOptions.fields]) hnodup hrev hp rfl ?_
    refine fill_cons_string fmt TriggerScheduleOptions.fields o _ _ _ _ _ _ _ _
      (by simp [TriggerScheduleOptions.fields]) hnodup hp rfl ?_
    refine fill_cons_boolean fmt TriggerScheduleOptions.fields o _ _ _ _ _ _ _ _
      (by simp [TriggerScheduleOptions.fields]) hnodup hbool hp rfl ?_
    refine fill_cons_boolean fmt TriggerScheduleOptions.fields o _ _ _ _ _ _ _ _
      (by simp [TriggerScheduleOptions.fields]) hnodup hbool hp rfl ?_
    rfl
  exact ⟨key, by rw [Properties.triggerScheduleOptions, key]⟩

/-- C10. `NewTriggerScheduleOptions` has the three force-marked flags set, the revision rule
`LatestFinishedBuild`, the branch `<default>` and every other field at its zero value; when
`LatestFinishedBuild` is not the empty string its bag is the five entries
`enableQueueOptimization`, `promoteWatchedBuild`, `triggerBuildWithPendingChangesOnly`,
`revisionRule`, `revisionRuleBuildBranch`, in this order. -/
theorem NewTriggerScheduleOptions_properties (fmt : PropertyFormat)
    (hconst : fmt.LatestFinishedBuild ≠ "") :
    NewTriggerScheduleOptions fmt
      = { QueueOptimization := true
          PromoteWatchedBuild := true
          BuildWithPendingChangesOnly := true
          TriggerIfWatchedBuildChanges := false
          BuildOnAllCompatibleAgents := false
          RevisionRuleSourceBuildID := ""
          RevisionRule := fmt.LatestFinishedBuild
          RevisionRuleBuildBranch := "<default>"
          EnforceCleanCheckout := false
          EnforceCleanCheckoutForDependencies := false } ∧
    (NewTriggerScheduleOptions fmt).properties fmt
      = ⟨[⟨"enableQueueOptimization", fmt.formatBool true⟩,
          ⟨"promoteWatchedBuild", fmt.formatBool true⟩,
          ⟨"triggerBuildWithPendingChangesOnly", fmt.formatBool true⟩,
          ⟨"revisionRule", fmt.LatestFinishedBuild⟩,
          ⟨"revisionRuleBuildBranch", "<default>"⟩]⟩ := by
  refine ⟨rfl, ?_⟩
  simp [TriggerScheduleOptions.properties, serializeToProperties, TriggerScheduleOptions.fields,
    FieldMetadata.emit, NewTriggerScheduleOptions, TriggerScheduleOptions.zero, hconst]

/-! ## Evaluation at concrete inputs -/

/-- Witness of C1: the declared constant `dotnet.cli` and the `null` item, whose type is
empty, are both refused. -/
theorem stepReadingFunc_unsupported_witness :
    (stepJSON.minimal "7" StepTypeDotnetCli).Type_ ≠ "simpleRunner" ∧
    stepReadingFunc docCodec (Doc.item (some (stepJSON.minimal "7" StepTypeDotnetCli))) none
      = (some "Unsupported step type: 'dotnet.cli' (id:'7')", none) ∧
    stepReadingFunc docCodec (Doc.item none) none
      = (some "Unsupported step type: '' (id:'')", none) :=
  ⟨by decide,
   stepReadingFunc_unsupported docCodec (Doc.item (some (stepJSON.minimal "7" StepTypeDotnetCli)))
     none (stepJSON.minimal "7" StepTypeDotnetCli) rfl (by decide) (by decide) (by decide)
     (by decide),
   stepReadingFunc_unsupported docCodec (Doc.item none) none stepJSON.zero rfl (by decide)
     (by decide) (by decide) (by decide)⟩

/-- Witness of C2: one minimal item for each of the four types; the match is on the exact
string, `SimpleRunner` selects no variant. -/
theorem stepReadingFunc_dispatches_witness :
    stepReadingFunc docCodec (Doc.item (some (stepJSON.minimal "5" "SimpleRunner"))) none
      = (some "Unsupported step type: 'SimpleRunner' (id:'5')", none) ∧
    stepReadingFunc docCodec (Doc.item (some (stepJSON.minimal "1" "jetbrains_powershell"))) none
      = (none, some (Step.powershell (stepJSON.minimal "1" "jetbrains_powershell"))) ∧
    stepReadingFunc docCodec (Doc.item (some (stepJSON.minimal "2" "simpleRunner"))) none
      = (none, some (Step.commandLine (stepJSON.minimal "2" "simpleRunner"))) ∧
    stepReadingFunc docCodec (Doc.item (some (stepJSON.minimal "3" "octopus.push.package"))) none
      = (none, some (Step.octopusPushPackage (stepJSON.minimal "3" "octopus.push.package"))) ∧
    stepReadingFunc docCodec (Doc.item (some (stepJSON.minimal "4" "octopus.create.release"))) none
      = (none, some (Step.octopusCreateRelease (stepJSON.minimal "4" "octopus.create.release"))) :=
  ⟨rfl,
   (stepReadingFunc_dispatches docCodec
      (Doc.item (some (stepJSON.minimal "1" "jetbrains_powershell"))) none
      (stepJSON.minimal "1" "jetbrains_powershell") rfl).1 rfl _ rfl,
   (stepReadingFunc_dispatches docCodec (Doc.item (some (stepJSON.minimal "2" "simpleRunner"))) none
      (stepJSON.minimal "2" "simpleRunner") rfl).2.1 rfl _ rfl,
   (stepReadingFunc_dispatches docCodec
      (Doc.item (some (stepJSON.minimal "3" "octopus.push.package"))) none
      (stepJSON.minimal "3" "octopus.push.package") rfl).2.2.1 rfl _ rfl,
   (stepReadingFunc_dispatches docCodec
      (Doc.item (some (stepJSON.minimal "4" "octopus.create.release"))) none
      (stepJSON.minimal "4" "octopus.create.release") rfl).2.2.2 rfl _ rfl⟩

/-- Witness of C3: the items `simpleRunner` with id 1 and `jetbrains_powershell` with id 2,
under the count 2, give the command-line step 1 and the powershell step 2, in this order. -/
theorem stepsReadingFunc_decodes_in_order_witness :
    stepsReadingFunc docCodec
        (Doc.collection ⟨2, [some (stepJSON.minimal "1" "simpleRunner"),
          some (stepJSON.minimal "2" "jetbrains_powershell")]⟩) []
      = .returned none [some (Step.commandLine (stepJSON.minimal "1" "simpleRunner")),
          some (Step.powershell (stepJSON.minimal "2" "jetbrains_powershell"))] :=
  (stepsReadingFunc_decodes_in_order docCodec
    (Doc.collection ⟨2, [some (stepJSON.minimal "1" "simpleRunner"),
      some (stepJSON.minimal "2" "jetbrains_powershell")]⟩) []
    ⟨2, [some (stepJSON.minimal "1" "simpleRunner"),
      some (stepJSON.minimal "2" "jetbrains_powershell")]⟩
    [Step.commandLine (stepJSON.minimal "1" "simpleRunner"),
      Step.powershell (stepJSON.minimal "2" "jetbrains_powershell")]
    rfl rfl (.cons rfl (.cons rfl .nil))).1

/-- C4 at concrete inputs: the envelope with count 1 and no item, and the envelope with
count -1, make `stepsReadingFunc` panic. -/
theorem stepsReadingFunc_panics_witness :
    stepsReadingFunc docCodec (Doc.collection ⟨1, []⟩) []
      = .panicked "runtime error: index out of range [0] with length 0" ∧
    stepsReadingFunc docCodec (Doc.collection ⟨-1, []⟩) []
      = .panicked "runtime error: makeslice: len out of range" :=
  ⟨(stepsReadingFunc_panics docCodec (Doc.collection ⟨1, []⟩) [] ⟨1, []⟩ rfl).2 (by decide)
      (by simp),
   (stepsReadingFunc_panics docCodec (Doc.collection ⟨-1, []⟩) [] ⟨-1, []⟩ rfl).1 (by decide)⟩

/-- Counterexample to C5: with the count 1 over two items, and with the count left out
(zero) over one item, `stepsReadingFunc` returns no error and stores a sequence cut at the
count. -/
theorem stepsReadingFunc_count_mismatch_succeeds :
    stepsReadingFunc docCodec
        (Doc.collection ⟨1, [some (stepJSON.minimal "1" "simpleRunner"),
          some (stepJSON.minimal "2" "jetbrains_powershell")]⟩) []
      = .returned none [some (Step.commandLine (stepJSON.minimal "1" "simpleRunner"))] ∧
    stepsReadingFunc docCodec
        (Doc.collection ⟨0, [some (stepJSON.minimal "1" "simpleRunner")]⟩) []
      = .returned none [] := by
  constructor <;> rfl

/-- Witness of C5 as the code has it: the count 1 over two items. -/
theorem stepsReadingFunc_cuts_at_count_witness :
    stepsReadingFunc docCodec
        (Doc.collection ⟨1, [some (stepJSON.minimal "1" "simpleRunner"),
          some (stepJSON.minimal "2" "jetbrains_powershell")]⟩) []
      = .returned none [some (Step.commandLine (stepJSON.minimal "1" "simpleRunner"))] :=
  (stepsReadingFunc_cuts_at_count docCodec
    (Doc.collection ⟨1, [some (stepJSON.minimal "1" "simpleRunner"),
      some (stepJSON.minimal "2" "jetbrains_powershell")]⟩) []
    ⟨1, [some (stepJSON.minimal "1" "simpleRunner"),
      some (stepJSON.minimal "2" "jetbrains_powershell")]⟩
    [Step.commandLine (stepJSON.minimal "1" "simpleRunner")]
    rfl (by decide) (by decide) (.cons rfl .nil)).1

/-- Witness of C6: a `null` item after an item that decodes; the error is that of the
`null` item and `out` keeps its former content. -/
theorem stepsReadingFunc_all_or_nothing_witness :
    stepsReadingFunc docCodec
        (Doc.collection ⟨2, [some (stepJSON.minimal "1" "simpleRunner"), none]⟩)
        [some (Step.powershell (stepJSON.minimal "9" "jetbrains_powershell"))]
      = .returned (some "Unsupported step type: '' (id:'')")
          [some (Step.powershell (stepJSON.minimal "9" "jetbrains_powershell"))] :=
  stepsReadingFunc_all_or_nothing docCodec
    (Doc.collection ⟨2, [some (stepJSON.minimal "1" "simpleRunner"), none]⟩)
    [some (Step.powershell (stepJSON.minimal "9" "jetbrains_powershell"))]
    ⟨2, [some (stepJSON.minimal "1" "simpleRunner"), none]⟩ 1 none
    "Unsupported step type: '' (id:'')" rfl (by decide) rfl
    (by intro it hit; simp at hit; subst hit; rfl) rfl

/-- Witness of C8: options with every kind of field set, and a force-marked flag at
`false`, come back from their bag. -/
theorem triggerScheduleOptions_properties_witness :
    Properties.triggerScheduleOptions serverFormat
        (TriggerScheduleOptions.properties serverFormat
          { QueueOptimization := false
            PromoteWatchedBuild := true
            BuildWithPendingChangesOnly := false
            TriggerIfWatchedBuildChanges := true
            BuildOnAllCompatibleAgents := false
            RevisionRuleSourceBuildID := "Project_Build"
            RevisionRule := "lastPinned"
            RevisionRuleBuildBranch := ""
            EnforceCleanCheckout := false
            EnforceCleanCheckoutForDependencies := true })
      = { QueueOptimization := false
          PromoteWatchedBuild := true
          BuildWithPendingChangesOnly := false
          TriggerIfWatchedBuildChanges := true
          BuildOnAllCompatibleAgents := false
          RevisionRuleSourceBuildID := "Project_Build"
          RevisionRule := "lastPinned"
          RevisionRuleBuildBranch := ""
          EnforceCleanCheckout := false
          EnforceCleanCheckoutForDependencies := true } :=
  (triggerScheduleOptions_properties serverFormat
    { QueueOptimization := false
      PromoteWatchedBuild := true
      BuildWithPendingChangesOnly := false
      TriggerIfWatchedBuildChanges := true
      BuildOnAllCompatibleAgents := false
      RevisionRuleSourceBuildID := "Project_Build"
      RevisionRule := "lastPinned"
      RevisionRuleBuildBranch := ""
      EnforceCleanCheckout := false
      EnforceCleanCheckoutForDependencies := true }
    (by intro b; cases b <;> rfl) (Or.inr (by decide))).2

/-- Witness of C10: with the tokens `true` and `false` and `LatestFinishedBuild` equal to
`lastFinished`. -/
theorem NewTriggerScheduleOptions_properties_witness :
    serverFormat.LatestFinishedBuild ≠ "" ∧
    (NewTriggerScheduleOptions serverFormat).properties serverFormat
      = ⟨[⟨"enableQueueOptimization", "true"⟩,
          ⟨"promoteWatchedBuild", "true"⟩,
          ⟨"triggerBuildWithPendingChangesOnly", "true"⟩,
          ⟨"revisionRule", "lastFinished"⟩,
          ⟨"revisionRuleBuildBranch", "<default>"⟩]⟩ :=
  ⟨by decide, (NewTriggerScheduleOptions_properties serverFormat (by decide)).2⟩

end Teamcity
